import Mathlib

/-!
Verification development for the CRYPTO_ROBOT live-trading core.

The definitions below are a shallow embedding of the Python sources under
src/: price levels are pairs of exact rationals (the sources use Python
floats; the spec allows decimal arithmetic, which ℚ realises exactly),
order books are lists of levels, and the strategy functions are direct
functional translations of the corresponding Python functions, keeping
their names where Lean allows.  Stateful code (the portfolio simulator and
the update pipeline) is embedded as explicit state passing; Python
exceptions are embedded with an Except monad where a claim depends on
exception behaviour.
-/

/-- One order-book level, as a (price, size) pair of exact rationals.
Mirrors the [price, volume] lists consumed by the strategy code. -/
abbrev Level := ℚ × ℚ

/-- An order book: the bids and asks lists of a snapshot, as consumed by
find_depth_aware_opportunity (a dict with keys bids and asks in the
source).  Dictionary-key presence is structural here; the emptiness checks
of the source are kept verbatim. -/
structure Book where
  bids : List Level
  asks : List Level
deriving DecidableEq

/-- Result dict of calculate_execution_details in
src/strategies/arbitrage_strategy.py: average price, total quote amount
moved, and base amount actually filled. -/
structure Fill where
  avg_price : ℚ
  total_other_asset : ℚ
  amount_filled : ℚ
deriving DecidableEq

/-- The loop of calculate_execution_details (lines 16-28 of
src/strategies/arbitrage_strategy.py): walk the levels, at each level
trade min(amount_to_fill, volume), accumulating total_cost and
filled_amount.  The break on amount_to_fill <= 0 is the first branch. -/
def calcExecGo : List Level → ℚ → ℚ → ℚ → ℚ × ℚ
  | [], _, total_cost, filled => (total_cost, filled)
  | (price, volume) :: rest, amount_to_fill, total_cost, filled =>
    if amount_to_fill ≤ 0 then (total_cost, filled)
    else
      let trade_volume := min amount_to_fill volume
      calcExecGo rest (amount_to_fill - trade_volume)
        (total_cost + trade_volume * price) (filled + trade_volume)

/-- calculate_execution_details from src/strategies/arbitrage_strategy.py.
Returns none when nothing was filled (the source returns None when
filled_amount == 0), otherwise the Fill dict.  The is_buy_side parameter
is kept from the source signature; the source never reads it. -/
def calculate_execution_details (order_book_side : List Level)
    (trade_amount : ℚ) (is_buy_side : Bool) : Option Fill :=
  let r := calcExecGo order_book_side trade_amount 0 0
  if r.2 = 0 then none
  else some ⟨r.1 / r.2, r.1, r.2⟩

/-- Fee schedule consumed by find_depth_aware_opportunity: the source
indexes the fees dict at okx and bybit taker_fee. -/
structure Fees where
  okx_taker : ℚ
  bybit_taker : ℚ
deriving DecidableEq

/-- Opportunity dict returned by find_depth_aware_opportunity. -/
structure Opp where
  opp_type : String
  buy_exchange : String
  sell_exchange : String
  buy_price : ℚ
  sell_price : ℚ
  profit_percentage : ℚ
  base_asset_amount : ℚ
  quote_asset_cost : ℚ
  quote_asset_revenue : ℚ
deriving DecidableEq

/-- Outcome of one buy-here-sell-there scenario block of
find_depth_aware_opportunity: reject is the hard return None of the
99-percent liquidity check, found is a returned opportunity, and pass is
the fall-through (buy leg empty or zero, sell leg empty, or profit not
positive) that lets control reach the next scenario in the source. -/
inductive DirOut
  | reject
  | found (o : Opp)
  | pass
deriving DecidableEq

/-- One scenario block of find_depth_aware_opportunity (the source spells
this block twice, lines 49-78 and 80-108, with books, fees and labels
swapped; the parameterisation makes that sharing explicit).  The division
trade_size_usdt / best ask price follows the source; headI is safe since
both call sites guard the buy side against emptiness first. -/
def directionEval (buySide sellSide : List Level) (trade_size_usdt : ℚ)
    (buyFee sellFee : ℚ) (tstr bx sx : String) : DirOut :=
  let amount_to_buy_base := trade_size_usdt / (buySide.headI).1
  match calculate_execution_details buySide amount_to_buy_base true with
  | none => .pass
  | some buy_details =>
    if 0 < buy_details.amount_filled then
      match calculate_execution_details sellSide buy_details.amount_filled false with
      | none => .pass
      | some sell_details =>
        if sell_details.amount_filled < buy_details.amount_filled * (99 / 100) then
          .reject
        else
          let cost := buy_details.total_other_asset * (1 + buyFee)
          let revenue := sell_details.total_other_asset * (1 - sellFee)
          let profit_pct := revenue / cost - 1
          if 0 < profit_pct then
            .found ⟨tstr, bx, sx, buy_details.avg_price, sell_details.avg_price,
              profit_pct, sell_details.amount_filled, cost, revenue⟩
          else .pass
    else .pass

/-- find_depth_aware_opportunity from src/strategies/arbitrage_strategy.py.
Line 46 of the source additionally tests the two book dicts for
truthiness, which is structural here; the redundant re-checks of
order_book_a asks (line 51) and order_book_b asks (line 84) are subsumed
by the surrounding guards exactly as in the source. -/
def find_depth_aware_opportunity (order_book_a order_book_b : Book)
    (trade_size_usdt : ℚ) (fees : Fees) : Option Opp :=
  if order_book_a.asks = [] ∨ order_book_b.bids = [] then none
  else
    match directionEval order_book_a.asks order_book_b.bids trade_size_usdt
        fees.okx_taker fees.bybit_taker "Buy A, Sell B" "A" "B" with
    | .reject => none
    | .found o => some o
    | .pass =>
      if order_book_b.asks = [] ∨ order_book_a.bids = [] then none
      else
        match directionEval order_book_b.asks order_book_a.bids trade_size_usdt
            fees.bybit_taker fees.okx_taker "Buy B, Sell A" "B" "A" with
        | .reject => none
        | .found o => some o
        | .pass => none

/-- The buy-on-B-sell-on-A half of find_depth_aware_opportunity (source
lines 80-108) as a standalone evaluator, for stating what the second
direction would return on its own. -/
def scenario2Eval (order_book_a order_book_b : Book) (trade_size_usdt : ℚ)
    (fees : Fees) : Option Opp :=
  if order_book_b.asks = [] ∨ order_book_a.bids = [] then none
  else
    match directionEval order_book_b.asks order_book_a.bids trade_size_usdt
        fees.bybit_taker fees.okx_taker "Buy B, Sell A" "B" "A" with
    | .reject => none
    | .found o => some o
    | .pass => none

/-- Taker fees of src/config/settings.py: 0.1 percent on both venues. -/
def TRADING_FEES : Fees := ⟨1 / 1000, 1 / 1000⟩

/-- TRADE_SIZE_USDT of src/config/settings.py. -/
def TRADE_SIZE_USDT : ℚ := 100

/-- MIN_PROFIT_THRESHOLD of src/config/settings.py (0.0005). -/
def MIN_PROFIT_THRESHOLD : ℚ := 5 / 10000

/-- MAX_DATA_STALENESS_SECONDS of src/config/settings.py (0.5 seconds);
defined there as the maximum time difference between two order books to
be considered valid, and referenced by no other source file. -/
def MAX_DATA_STALENESS_SECONDS : ℚ := 1 / 2

/-- C6.  On book A asks = [[100,5]], book B bids = [[101,5]], taker fee
0.1 percent on both sides and trade size 100 quote units, detection buys
1 base unit at average price 100, sells 1 base unit at average price 101,
computes cost 100.1 and revenue 100.899 exactly, yields the positive
profit fraction 100.899/100.1 - 1 = 799/100100 (about 0.00798), and
returns the opportunity. -/
theorem two_venue_concrete_example :
    find_depth_aware_opportunity ⟨[], [(100, 5)]⟩ ⟨[(101, 5)], []⟩ 100 TRADING_FEES
      = some ⟨"Buy A, Sell B", "A", "B", 100, 101, 799 / 100100, 1, 1001 / 10, 100899 / 1000⟩
    ∧ ((100899 : ℚ) / 1000) / ((1001 : ℚ) / 10) - 1 = 799 / 100100
    ∧ (0 : ℚ) < 799 / 100100 := by
  refine ⟨?_, by norm_num, by norm_num⟩
  norm_num [find_depth_aware_opportunity, directionEval, calculate_execution_details,
    calcExecGo, TRADING_FEES, min_def, List.headI]

/-- C4 counterexample.  Book A asks [[10,10]] bids [[9,10]]; book B asks
[[8,10]] bids [[9.5, 0.001]]; trade size 100.  Direction A to B enters
(buy fills 10 units) but its sell leg fills only 0.001 < 9.9 units, and
the source returns None at that point; direction B to A, evaluated on its
own by the very same scenario code, is profitable (buy 10 at 8 on B, sell
10 at 9 on A, profit fraction 983/8008 > 0).  So an infeasible first
direction does prevent the profitable second direction from being
returned, refuting the claim at this input. -/
theorem two_venue_first_direction_shadows_second :
    find_depth_aware_opportunity ⟨[(9, 10)], [(10, 10)]⟩ ⟨[(19 / 2, 1 / 1000)], [(8, 10)]⟩
        100 TRADING_FEES = none
    ∧ scenario2Eval ⟨[(9, 10)], [(10, 10)]⟩ ⟨[(19 / 2, 1 / 1000)], [(8, 10)]⟩
        100 TRADING_FEES
      = some ⟨"Buy B, Sell A", "B", "A", 8, 9, 983 / 8008, 10, 2002 / 25, 8991 / 100⟩
    ∧ (0 : ℚ) < 983 / 8008 := by
  refine ⟨?_, ?_, by norm_num⟩
  · norm_num [find_depth_aware_opportunity, directionEval, calculate_execution_details,
      calcExecGo, TRADING_FEES, min_def, List.headI]
  · norm_num [scenario2Eval, directionEval, calculate_execution_details,
      calcExecGo, TRADING_FEES, min_def, List.headI]

/-- The loop of get_amount_out in
src/strategies/triangular_arbitrage_strategy.py, returning both the
accumulated amount_out and the internal spent_so_far counter (the source
returns only amount_out; spent_so_far is its loop variable, exposed here
so that depth-consumption bounds can be stated about it).  The break on
spent_so_far >= amount_in heads each iteration as in the source. -/
def gaoGo (is_buy_base : Bool) (amount_in : ℚ) :
    List Level → ℚ → ℚ → ℚ × ℚ
  | [], amount_out, spent_so_far => (amount_out, spent_so_far)
  | (price, volume) :: rest, amount_out, spent_so_far =>
    if amount_in ≤ spent_so_far then (amount_out, spent_so_far)
    else if is_buy_base then
      let quote_available_at_level := volume * price
      let quote_to_spend_at_level := min (amount_in - spent_so_far) quote_available_at_level
      gaoGo is_buy_base amount_in rest
        (amount_out + quote_to_spend_at_level / price)
        (spent_so_far + quote_to_spend_at_level)
    else
      let base_to_spend_at_level := min (amount_in - spent_so_far) volume
      gaoGo is_buy_base amount_in rest
        (amount_out + base_to_spend_at_level * price)
        (spent_so_far + base_to_spend_at_level)

/-- get_amount_out from src/strategies/triangular_arbitrage_strategy.py:
the amount of the other currency received after walking the side. -/
def get_amount_out (order_book_side : List Level) (amount_in : ℚ)
    (is_buy_base : Bool) : ℚ :=
  (gaoGo is_buy_base amount_in order_book_side 0 0).1

/-- The input currency actually consumed by a get_amount_out walk: the
final value of the spent_so_far loop variable of the source. -/
def gaoSpent (order_book_side : List Level) (amount_in : ℚ)
    (is_buy_base : Bool) : ℚ :=
  (gaoGo is_buy_base amount_in order_book_side 0 0).2

/-- Result dict of find_triangular_opportunity: the path label string and
the profit fraction. -/
structure TriRes where
  path : String
  profit_pct : ℚ
deriving DecidableEq

/-- Path 1 of find_triangular_opportunity (source lines 58-83): base to
middle to quote to base, buying on the middle/base asks, buying on the
quote/middle asks, selling on the quote/base bids, with the taker fee
applied once after each leg.  Returns none where the source falls through
to Path 2. -/
def path1Eval (book_middle_base book_quote_middle book_quote_base : Book)
    (base_C middle_A quote_B : String) (start_amount fee : ℚ) : Option TriRes :=
  let amount_A := get_amount_out book_middle_base.asks start_amount true * (1 - fee)
  if 0 < amount_A then
    let amount_B := get_amount_out book_quote_middle.asks amount_A true * (1 - fee)
    if 0 < amount_B then
      let final_amount := get_amount_out book_quote_base.bids amount_B false * (1 - fee)
      if 0 < final_amount then
        some ⟨base_C ++ "->" ++ middle_A ++ "->" ++ quote_B ++ "->" ++ base_C,
          final_amount / start_amount - 1⟩
      else none
    else none
  else none

/-- Path 2 of find_triangular_opportunity (source lines 85-110): base to
quote to middle to base, buying on the quote/base asks, selling on the
quote/middle bids, selling on the middle/base bids, with the taker fee
applied once after each leg. -/
def path2Eval (book_middle_base book_quote_middle book_quote_base : Book)
    (base_C middle_A quote_B : String) (start_amount fee : ℚ) : Option TriRes :=
  let amount_B := get_amount_out book_quote_base.asks start_amount true * (1 - fee)
  if 0 < amount_B then
    let amount_A := get_amount_out book_quote_middle.bids amount_B false * (1 - fee)
    if 0 < amount_A then
      let final_amount := get_amount_out book_middle_base.bids amount_A false * (1 - fee)
      if 0 < final_amount then
        some ⟨base_C ++ "->" ++ quote_B ++ "->" ++ middle_A ++ "->" ++ base_C,
          final_amount / start_amount - 1⟩
      else none
    else none
  else none

/-- find_triangular_opportunity from
src/strategies/triangular_arbitrage_strategy.py.  The source looks the
three books up in a dict keyed by the pair labels and splits the labels
into currency names; the embedding takes the three books and the three
currency names directly (the spec validates the triangle structurally at
configuration time).  If the Path 1 block does not return, control falls
through to the Path 2 block, which is exactly the orElse below. -/
def find_triangular_opportunity (book_middle_base book_quote_middle book_quote_base : Book)
    (base_C middle_A quote_B : String) (start_amount fee : ℚ) : Option TriRes :=
  match path1Eval book_middle_base book_quote_middle book_quote_base
      base_C middle_A quote_B start_amount fee with
  | some r => some r
  | none => path2Eval book_middle_base book_quote_middle book_quote_base
      base_C middle_A quote_B start_amount fee

/-- Triangle of books used to refute C3: BTC/USDT asks at 10 bids at 9.9,
ETH/BTC asks at 1 bids at 0.99, ETH/USDT asks at 9.5 bids at 9, all with
depth 1000. -/
def triBookMB : Book := ⟨[(99 / 10, 1000)], [(10, 1000)]⟩

/-- Quote-middle book of the C3 counterexample triangle. -/
def triBookQM : Book := ⟨[(99 / 100, 1000)], [(1, 1000)]⟩

/-- Quote-base book of the C3 counterexample triangle. -/
def triBookQB : Book := ⟨[(9, 1000)], [(19 / 2, 1000)]⟩

/-- C3 counterexample.  On the triangle above with start amount 100 and
fee 0.1 percent, the forward cycle completes at a loss (profit fraction
negative) and the source returns that losing record immediately, while
the reverse cycle, evaluated by the Path 2 code of the same source, would
have been profitable.  The reverse direction is therefore not evaluated
symmetrically: its profitable result is never reached. -/
theorem triangular_forward_shadows_reverse :
    find_triangular_opportunity triBookMB triBookQM triBookQB "USDT" "BTC" "ETH"
        100 (1 / 1000)
      = some ⟨"USDT->BTC->ETH->USDT", -(1026973009 / 10000000000)⟩
    ∧ (-(1026973009 : ℚ) / 10000000000) < 0
    ∧ path2Eval triBookMB triBookQM triBookQB "USDT" "BTC" "ETH" 100 (1 / 1000)
      = some ⟨"USDT->ETH->BTC->USDT", 271626393199 / 9500000000000⟩
    ∧ (0 : ℚ) < 271626393199 / 9500000000000 := by
  refine ⟨?_, by norm_num, ?_, by norm_num⟩
  · norm_num [find_triangular_opportunity, path1Eval, path2Eval, get_amount_out,
      gaoGo, triBookMB, triBookQM, triBookQB, min_def, List.headI]
    rfl
  · norm_num [path2Eval, get_amount_out, gaoGo, triBookQM, triBookMB, triBookQB, min_def]
    rfl

/-- Bounds on the calculate_execution_details loop: with non-negative
level sizes and a non-negative request, the filled accumulator never
decreases, never exceeds the request, and never exceeds the depth of the
side. -/
theorem calcExecGo_filled_bounds (side : List Level) :
    ∀ a c f : ℚ, (∀ l ∈ side, 0 ≤ l.2) → 0 ≤ a →
      f ≤ (calcExecGo side a c f).2 ∧ (calcExecGo side a c f).2 ≤ f + a ∧
      (calcExecGo side a c f).2 ≤ f + (side.map Prod.snd).sum := by
  induction side with
  | nil =>
    intro a c f _ ha
    simp only [calcExecGo, List.map_nil, List.sum_nil]
    exact ⟨le_refl f, by linarith, by linarith⟩
  | cons hd tl ih =>
    intro a c f hsz ha
    obtain ⟨p, v⟩ := hd
    have hv : 0 ≤ v := hsz (p, v) (List.mem_cons_self _ _)
    have htl : ∀ l ∈ tl, 0 ≤ l.2 := fun l hl => hsz l (List.mem_cons_of_mem _ hl)
    have hsum : 0 ≤ (tl.map Prod.snd).sum :=
      List.sum_nonneg (by intro x hx; obtain ⟨l, hl, rfl⟩ := List.mem_map.mp hx; exact htl l hl)
    simp only [calcExecGo, List.map_cons, List.sum_cons]
    split
    · exact ⟨le_refl f, by linarith, by linarith⟩
    · rename_i h
      have ha' : 0 < a := lt_of_not_le h
      have htv0 : 0 ≤ min a v := le_min (le_of_lt ha') hv
      have htva : min a v ≤ a := min_le_left _ _
      have htvv : min a v ≤ v := min_le_right _ _
      obtain ⟨i1, i2, i3⟩ := ih (a - min a v) (c + min a v * p) (f + min a v) htl (by linarith)
      exact ⟨by linarith, by linarith, by linarith⟩

/-- Lower bound on the quote amount accumulated by the
calculate_execution_details loop when every level price is at least m. -/
theorem calcExecGo_cost_lb (side : List Level) :
    ∀ a c f m : ℚ, (∀ l ∈ side, 0 ≤ l.2 ∧ m ≤ l.1) → 0 ≤ a → 0 ≤ m →
      m * ((calcExecGo side a c f).2 - f) + c ≤ (calcExecGo side a c f).1 := by
  induction side with
  | nil => intro a c f m _ _ _; simp [calcExecGo]
  | cons hd tl ih =>
    intro a c f m hlv ha hm
    obtain ⟨p, v⟩ := hd
    obtain ⟨hv, hp⟩ := hlv (p, v) (List.mem_cons_self _ _)
    have htl := fun l hl => hlv l (List.mem_cons_of_mem _ hl)
    simp only [calcExecGo]
    split
    · simp
    · rename_i h
      have ha' : 0 < a := lt_of_not_le h
      have htv0 : 0 ≤ min a v := le_min (le_of_lt ha') hv
      have htva : min a v ≤ a := min_le_left _ _
      have hstep : m * min a v ≤ min a v * p := by
        calc m * min a v = min a v * m := mul_comm _ _
          _ ≤ min a v * p := mul_le_mul_of_nonneg_left hp htv0
      have := ih (a - min a v) (c + min a v * p) (f + min a v) m htl (by linarith) hm
      linarith

/-- Upper bound on the quote amount accumulated by the
calculate_execution_details loop when every level price is at most M. -/
theorem calcExecGo_cost_ub (side : List Level) :
    ∀ a c f M : ℚ, (∀ l ∈ side, 0 ≤ l.2 ∧ l.1 ≤ M) → 0 ≤ a →
      (calcExecGo side a c f).1 ≤ M * ((calcExecGo side a c f).2 - f) + c := by
  induction side with
  | nil => intro a c f M _ _; simp [calcExecGo]
  | cons hd tl ih =>
    intro a c f M hlv ha
    obtain ⟨p, v⟩ := hd
    obtain ⟨hv, hp⟩ := hlv (p, v) (List.mem_cons_self _ _)
    have htl := fun l hl => hlv l (List.mem_cons_of_mem _ hl)
    simp only [calcExecGo]
    split
    · simp
    · rename_i h
      have ha' : 0 < a := lt_of_not_le h
      have htv0 : 0 ≤ min a v := le_min (le_of_lt ha') hv
      have htva : min a v ≤ a := min_le_left _ _
      have hstep : min a v * p ≤ M * min a v := by
        calc min a v * p ≤ min a v * M := mul_le_mul_of_nonneg_left hp htv0
          _ = M * min a v := mul_comm _ _
      have := ih (a - min a v) (c + min a v * p) (f + min a v) M htl (by linarith)
      linarith

/-- Depth listed on one side as consumed by a get_amount_out walk:
quote-denominated (size times price) when buying base with quote,
base-denominated (size) when selling base. -/
def sideDepth (is_buy_base : Bool) (side : List Level) : ℚ :=
  (side.map (fun l => if is_buy_base then l.2 * l.1 else l.2)).sum

theorem gaoGo_spent_bounds_buy (A : ℚ) (side : List Level) :
    ∀ out spent : ℚ, (∀ l ∈ side, 0 ≤ l.1 ∧ 0 ≤ l.2) → spent ≤ A →
      spent ≤ (gaoGo true A side out spent).2 ∧
      (gaoGo true A side out spent).2 ≤ A ∧
      (gaoGo true A side out spent).2 ≤ spent + (side.map (fun l => l.2 * l.1)).sum := by
  induction side with
  | nil =>
    intro out spent _ hs
    simp only [gaoGo, List.map_nil, List.sum_nil]
    exact ⟨le_refl _, hs, by linarith⟩
  | cons hd tl ih =>
    intro out spent hlv hs
    obtain ⟨p, v⟩ := hd
    obtain ⟨hp, hv⟩ := hlv (p, v) (List.mem_cons_self _ _)
    have htl := fun l hl => hlv l (List.mem_cons_of_mem _ hl)
    have hsum : 0 ≤ (tl.map (fun l => l.2 * l.1)).sum := by
      refine List.sum_nonneg ?_
      intro x hx
      obtain ⟨l, hl, rfl⟩ := List.mem_map.mp hx
      obtain ⟨hl1, hl2⟩ := htl l hl
      positivity
    have hqa : 0 ≤ v * p := mul_nonneg hv hp
    simp only [gaoGo, List.map_cons, List.sum_cons, reduceIte]
    split
    · exact ⟨le_refl _, hs, by linarith⟩
    · rename_i h
      have hlt : spent < A := lt_of_not_le h
      have hq0 : 0 ≤ min (A - spent) (v * p) := le_min (by linarith) hqa
      have hqA : min (A - spent) (v * p) ≤ A - spent := min_le_left _ _
      have hqv : min (A - spent) (v * p) ≤ v * p := min_le_right _ _
      obtain ⟨i1, i2, i3⟩ := ih (out + min (A - spent) (v * p) / p)
        (spent + min (A - spent) (v * p)) htl (by linarith)
      exact ⟨by linarith, i2, by linarith⟩

theorem gaoGo_spent_bounds_sell (A : ℚ) (side : List Level) :
    ∀ out spent : ℚ, (∀ l ∈ side, 0 ≤ l.1 ∧ 0 ≤ l.2) → spent ≤ A →
      spent ≤ (gaoGo false A side out spent).2 ∧
      (gaoGo false A side out spent).2 ≤ A ∧
      (gaoGo false A side out spent).2 ≤ spent + (side.map Prod.snd).sum := by
  induction side with
  | nil =>
    intro out spent _ hs
    simp only [gaoGo, List.map_nil, List.sum_nil]
    exact ⟨le_refl _, hs, by linarith⟩
  | cons hd tl ih =>
    intro out spent hlv hs
    obtain ⟨p, v⟩ := hd
    obtain ⟨hp, hv⟩ := hlv (p, v) (List.mem_cons_self _ _)
    have htl := fun l hl => hlv l (List.mem_cons_of_mem _ hl)
    have hsum : 0 ≤ (tl.map Prod.snd).sum := by
      refine List.sum_nonneg ?_
      intro x hx
      obtain ⟨l, hl, rfl⟩ := List.mem_map.mp hx
      exact (htl l hl).2
    simp only [gaoGo, List.map_cons, List.sum_cons, Bool.false_eq_true, if_false]
    split
    · exact ⟨le_refl _, hs, by linarith⟩
    · rename_i h
      have hlt : spent < A := lt_of_not_le h
      have hq0 : 0 ≤ min (A - spent) v := le_min (by linarith) hv
      have hqA : min (A - spent) v ≤ A - spent := min_le_left _ _
      have hqv : min (A - spent) v ≤ v := min_le_right _ _
      obtain ⟨i1, i2, i3⟩ := ih (out + min (A - spent) v * p)
        (spent + min (A - spent) v) htl (by linarith)
      exact ⟨by linarith, i2, by linarith⟩

/-- C8.  No depth walk manufactures fill beyond the request or beyond the
listed depth.  For calculate_execution_details (any side with
non-negative sizes, any non-negative request): a returned fill satisfies
amount_filled <= request and amount_filled <= sum of sizes.  For
get_amount_out: the input currency consumed (the spent_so_far counter)
never exceeds amount_in nor the depth listed on the walked side. -/
theorem fill_bounded_by_request_and_depth :
    (∀ (side : List Level) (amt : ℚ) (b : Bool) (fl : Fill),
        (∀ l ∈ side, 0 ≤ l.2) → 0 ≤ amt →
        calculate_execution_details side amt b = some fl →
        fl.amount_filled ≤ amt ∧ fl.amount_filled ≤ (side.map Prod.snd).sum)
    ∧ (∀ (side : List Level) (amt : ℚ) (b : Bool),
        (∀ l ∈ side, 0 ≤ l.1 ∧ 0 ≤ l.2) → 0 ≤ amt →
        gaoSpent side amt b ≤ amt ∧
        gaoSpent side amt b ≤ sideDepth b side) := by
  constructor
  · intro side amt b fl hsz hamt heq
    obtain ⟨b1, b2, b3⟩ := calcExecGo_filled_bounds side amt 0 0 hsz hamt
    have hfl : fl.amount_filled = (calcExecGo side amt 0 0).2 := by
      by_cases hz : (calcExecGo side amt 0 0).2 = 0
      · simp [calculate_execution_details, hz] at heq
      · simp [calculate_execution_details, hz] at heq
        rw [← heq]
    rw [hfl]
    exact ⟨by linarith, by linarith⟩
  · intro side amt b hlv hamt
    cases b
    · obtain ⟨b1, b2, b3⟩ := gaoGo_spent_bounds_sell amt side 0 0 hlv hamt
      refine ⟨b2, ?_⟩
      simp only [gaoSpent, sideDepth, if_false]
      simpa using b3
    · obtain ⟨b1, b2, b3⟩ := gaoGo_spent_bounds_buy amt side 0 0 hlv hamt
      refine ⟨b2, ?_⟩
      simp only [gaoSpent, sideDepth, if_true]
      simpa using b3

/-- Witness for C8 at a concrete input: side [(10, 5)], request 3, both
walkers. -/
theorem fill_bounded_by_request_and_depth_witness :
    ((⟨10, 30, 3⟩ : Fill).amount_filled ≤ 3 ∧
      (⟨10, 30, 3⟩ : Fill).amount_filled ≤ ([((10 : ℚ), (5 : ℚ))].map Prod.snd).sum)
    ∧ (gaoSpent [((10 : ℚ), (5 : ℚ))] 3 true ≤ 3 ∧
      gaoSpent [((10 : ℚ), (5 : ℚ))] 3 true ≤ sideDepth true [((10 : ℚ), (5 : ℚ))]) := by
  constructor
  · exact fill_bounded_by_request_and_depth.1 [(10, 5)] 3 true ⟨10, 30, 3⟩
      (by norm_num) (by norm_num)
      (by norm_num [calculate_execution_details, calcExecGo, min_def])
  · exact fill_bounded_by_request_and_depth.2 [(10, 5)] 3 true
      (by norm_num) (by norm_num)

/-- Field extraction for a successful calculate_execution_details call:
the returned quote total and filled amount are the two accumulators of
the walk. -/
theorem calc_exec_some {side : List Level} {amt : ℚ} {b : Bool} {fl : Fill}
    (h : calculate_execution_details side amt b = some fl) :
    fl.total_other_asset = (calcExecGo side amt 0 0).1 ∧
    fl.amount_filled = (calcExecGo side amt 0 0).2 := by
  by_cases hz : (calcExecGo side amt 0 0).2 = 0
  · simp [calculate_execution_details, hz] at h
  · simp [calculate_execution_details, hz] at h
    rw [← h]
    exact ⟨rfl, rfl⟩

/-- A successful calculate_execution_details call needs a non-empty side. -/
theorem calc_exec_some_ne_nil {side : List Level} {amt : ℚ} {b : Bool} {fl : Fill}
    (h : calculate_execution_details side amt b = some fl) : side ≠ [] := by
  intro he
  subst he
  simp [calculate_execution_details, calcExecGo] at h

/-- Membership of the default-valued head in a non-empty list. -/
theorem headI_mem_of_ne_nil {α : Type} [Inhabited α] {l : List α} (h : l ≠ []) :
    l.headI ∈ l := by
  cases l with
  | nil => exact absurd rfl h
  | cons x xs => simp

/-- Core inequality behind C7: when the best bid of the sell side does not
exceed the best ask of the buy side (books with positive prices,
non-negative sizes, best price leading each side, non-negative fees and
trade size), one scenario block of find_depth_aware_opportunity can never
report an opportunity. -/
theorem directionEval_not_found (buySide sellSide : List Level) (ts bf sf : ℚ)
    (tstr bx sx : String)
    (hts : 0 ≤ ts) (hbf : 0 ≤ bf) (hsf : 0 ≤ sf)
    (hbuy : ∀ l ∈ buySide, 0 < l.1 ∧ 0 ≤ l.2)
    (hsell : ∀ l ∈ sellSide, 0 < l.1 ∧ 0 ≤ l.2)
    (hbuyLead : ∀ l ∈ buySide, (buySide.headI).1 ≤ l.1)
    (hsellLead : ∀ l ∈ sellSide, l.1 ≤ (sellSide.headI).1)
    (hnc : (sellSide.headI).1 ≤ (buySide.headI).1) :
    ∀ o, directionEval buySide sellSide ts bf sf tstr bx sx ≠ .found o := by
  intro o hfound
  simp only [directionEval] at hfound
  cases h1 : calculate_execution_details buySide (ts / (buySide.headI).1) true with
  | none => simp [h1] at hfound
  | some bd =>
    simp only [h1] at hfound
    by_cases hpos : 0 < bd.amount_filled
    · rw [if_pos hpos] at hfound
      cases h2 : calculate_execution_details sellSide bd.amount_filled false with
      | none => simp [h2] at hfound
      | some sd =>
        simp only [h2] at hfound
        by_cases h99 : sd.amount_filled < bd.amount_filled * (99 / 100)
        · rw [if_pos h99] at hfound
          simp at hfound
        · rw [if_neg h99] at hfound
          have hneB : buySide ≠ [] := calc_exec_some_ne_nil h1
          have hneS : sellSide ≠ [] := calc_exec_some_ne_nil h2
          have hask : 0 < (buySide.headI).1 := (hbuy _ (headI_mem_of_ne_nil hneB)).1
          have hbid : 0 < (sellSide.headI).1 := (hsell _ (headI_mem_of_ne_nil hneS)).1
          obtain ⟨hbdT, hbdF⟩ := calc_exec_some h1
          obtain ⟨hsdT, hsdF⟩ := calc_exec_some h2
          have hamt : 0 ≤ ts / (buySide.headI).1 := div_nonneg hts hask.le
          have hlb := calcExecGo_cost_lb buySide (ts / (buySide.headI).1) 0 0
            ((buySide.headI).1) (fun l hl => ⟨(hbuy l hl).2, hbuyLead l hl⟩) hamt hask.le
          have hub := calcExecGo_cost_ub sellSide bd.amount_filled 0 0
            ((sellSide.headI).1) (fun l hl => ⟨(hsell l hl).2, hsellLead l hl⟩) hpos.le
          have hsl0 := calcExecGo_cost_lb sellSide bd.amount_filled 0 0 0
            (fun l hl => ⟨(hsell l hl).2, (hsell l hl).1.le⟩) hpos.le le_rfl
          obtain ⟨hf0, hfle, _⟩ := calcExecGo_filled_bounds sellSide bd.amount_filled 0 0
            (fun l hl => (hsell l hl).2) hpos.le
          -- abbreviations for the two walks
          have hbdT' : (buySide.headI).1 * bd.amount_filled ≤ bd.total_other_asset := by
            rw [hbdT, hbdF]; linarith
          have hsdT0 : 0 ≤ sd.total_other_asset := by rw [hsdT]; linarith
          have hsdT' : sd.total_other_asset ≤ (sellSide.headI).1 * sd.amount_filled := by
            rw [hsdT, hsdF]; linarith
          have hsdFle : sd.amount_filled ≤ bd.amount_filled := by rw [hsdF]; linarith
          have hbdT0 : 0 < bd.total_other_asset :=
            lt_of_lt_of_le (mul_pos hask hpos) hbdT'
          have hcost : 0 < bd.total_other_asset * (1 + bf) :=
            mul_pos hbdT0 (by linarith)
          have hrev_le : sd.total_other_asset * (1 - sf) ≤ bd.total_other_asset * (1 + bf) := by
            have s1 : sd.total_other_asset * (1 - sf) ≤ sd.total_other_asset := by
              nlinarith
            have s2 : (sellSide.headI).1 * sd.amount_filled ≤
                (sellSide.headI).1 * bd.amount_filled :=
              mul_le_mul_of_nonneg_left hsdFle hbid.le
            have s3 : (sellSide.headI).1 * bd.amount_filled ≤
                (buySide.headI).1 * bd.amount_filled :=
              mul_le_mul_of_nonneg_right hnc hpos.le
            have s4 : bd.total_other_asset ≤ bd.total_other_asset * (1 + bf) := by
              nlinarith
            linarith
          have hple : sd.total_other_asset * (1 - sf) /
              (bd.total_other_asset * (1 + bf)) - 1 ≤ 0 := by
            have := (div_le_one hcost).mpr hrev_le
            linarith
          rw [if_neg (not_lt.mpr hple)] at hfound
          simp at hfound
    · rw [if_neg hpos] at hfound
      simp at hfound

/-- C7.  On a non-crossed market (best ask of A at least best bid of B and
best ask of B at least best bid of A, whenever the respective sides are
present), with positive prices, non-negative sizes, best price leading
each side, and non-negative trade size and fees, two-venue detection
returns no opportunity. -/
theorem noncrossed_market_no_opportunity (a b : Book) (ts : ℚ) (fees : Fees)
    (hts : 0 ≤ ts) (hf1 : 0 ≤ fees.okx_taker) (hf2 : 0 ≤ fees.bybit_taker)
    (haa : ∀ l ∈ a.asks, 0 < l.1 ∧ 0 ≤ l.2) (hab : ∀ l ∈ a.bids, 0 < l.1 ∧ 0 ≤ l.2)
    (hba : ∀ l ∈ b.asks, 0 < l.1 ∧ 0 ≤ l.2) (hbb : ∀ l ∈ b.bids, 0 < l.1 ∧ 0 ≤ l.2)
    (haLead : ∀ l ∈ a.asks, (a.asks.headI).1 ≤ l.1)
    (hbLead : ∀ l ∈ b.asks, (b.asks.headI).1 ≤ l.1)
    (habLead : ∀ l ∈ a.bids, l.1 ≤ (a.bids.headI).1)
    (hbbLead : ∀ l ∈ b.bids, l.1 ≤ (b.bids.headI).1)
    (hnc1 : a.asks ≠ [] → b.bids ≠ [] → (b.bids.headI).1 ≤ (a.asks.headI).1)
    (hnc2 : b.asks ≠ [] → a.bids ≠ [] → (a.bids.headI).1 ≤ (b.asks.headI).1) :
    find_depth_aware_opportunity a b ts fees = none := by
  rw [find_depth_aware_opportunity]
  by_cases g1 : a.asks = [] ∨ b.bids = []
  · rw [if_pos g1]
  · rw [if_neg g1]
    push_neg at g1
    cases hD1 : directionEval a.asks b.bids ts fees.okx_taker fees.bybit_taker
        "Buy A, Sell B" "A" "B" with
    | reject => rfl
    | found o =>
      exact absurd hD1 (directionEval_not_found a.asks b.bids ts fees.okx_taker
        fees.bybit_taker "Buy A, Sell B" "A" "B" hts hf1 hf2 haa hbb haLead hbbLead
        (hnc1 g1.1 g1.2) o)
    | pass =>
      by_cases g2 : b.asks = [] ∨ a.bids = []
      · rw [if_pos g2]
      · rw [if_neg g2]
        push_neg at g2
        cases hD2 : directionEval b.asks a.bids ts fees.bybit_taker fees.okx_taker
            "Buy B, Sell A" "B" "A" with
        | reject => rfl
        | found o =>
          exact absurd hD2 (directionEval_not_found b.asks a.bids ts fees.bybit_taker
            fees.okx_taker "Buy B, Sell A" "B" "A" hts hf2 hf1 hba hab hbLead habLead
            (hnc2 g2.1 g2.2) o)
        | pass => rfl

/-- Witness for C7: a concrete non-crossed pair of books (A asks from 10,
bids from 9.9; B asks from 10.1, bids from 9.8) yields no opportunity. -/
theorem noncrossed_market_no_opportunity_witness :
    find_depth_aware_opportunity ⟨[(99 / 10, 5)], [(10, 5)]⟩
      ⟨[(49 / 5, 5)], [(101 / 10, 5)]⟩ 100 TRADING_FEES = none := by
  refine noncrossed_market_no_opportunity _ _ 100 TRADING_FEES (by norm_num)
    (by norm_num [TRADING_FEES]) (by norm_num [TRADING_FEES]) ?_ ?_ ?_ ?_ ?_ ?_ ?_ ?_ ?_ ?_
  all_goals norm_num [List.headI]

/-- C4 amended.  Two-venue detection evaluates direction A to B first.
When that direction enters (buy leg returns a positive fill) and its sell
leg also returns, the function returns none without evaluating direction
B to A whenever the sell leg fills less than 99 percent of the buy fill;
direction B to A is evaluated (the result is exactly that of the
standalone second-direction evaluator) only when the first direction is
feasible but unprofitable. -/
theorem two_venue_direction_order (a b : Book) (ts : ℚ) (fees : Fees)
    (bd sd : Fill)
    (hg1 : a.asks ≠ []) (hg2 : b.bids ≠ [])
    (hbd : calculate_execution_details a.asks (ts / (a.asks.headI).1) true = some bd)
    (hpos : 0 < bd.amount_filled)
    (hsd : calculate_execution_details b.bids bd.amount_filled false = some sd) :
    (sd.amount_filled < bd.amount_filled * (99 / 100) →
      find_depth_aware_opportunity a b ts fees = none)
    ∧ (¬ sd.amount_filled < bd.amount_filled * (99 / 100) →
      sd.total_other_asset * (1 - fees.bybit_taker) /
          (bd.total_other_asset * (1 + fees.okx_taker)) - 1 ≤ 0 →
      find_depth_aware_opportunity a b ts fees = scenario2Eval a b ts fees) := by
  have hguard : ¬(a.asks = [] ∨ b.bids = []) := by
    rintro (h | h)
    · exact hg1 h
    · exact hg2 h
  constructor
  · intro h99
    have hD : directionEval a.asks b.bids ts fees.okx_taker fees.bybit_taker
        "Buy A, Sell B" "A" "B" = DirOut.reject := by
      simp only [directionEval, hbd]
      rw [if_pos hpos]
      simp only [hsd]
      rw [if_pos h99]
    rw [find_depth_aware_opportunity, if_neg hguard, hD]
  · intro h99 hprof
    have hD : directionEval a.asks b.bids ts fees.okx_taker fees.bybit_taker
        "Buy A, Sell B" "A" "B" = DirOut.pass := by
      simp only [directionEval, hbd]
      rw [if_pos hpos]
      simp only [hsd]
      rw [if_neg h99, if_neg (not_lt.mpr hprof)]
    rw [find_depth_aware_opportunity, if_neg hguard, hD, scenario2Eval]

/-- Witness for C4 amended at the books of the counterexample: the sell
leg of direction A to B fills 0.001 < 9.9 of the 10 bought, so detection
returns none. -/
theorem two_venue_direction_order_witness :
    find_depth_aware_opportunity ⟨[(9, 10)], [(10, 10)]⟩
      ⟨[(19 / 2, 1 / 1000)], [(8, 10)]⟩ 100 TRADING_FEES = none := by
  refine (two_venue_direction_order ⟨[(9, 10)], [(10, 10)]⟩
      ⟨[(19 / 2, 1 / 1000)], [(8, 10)]⟩ 100 TRADING_FEES
      ⟨10, 100, 10⟩ ⟨19 / 2, 19 / 2000, 1 / 1000⟩
      (by norm_num) (by norm_num) ?_ (by norm_num) ?_).1 (by norm_num)
  · norm_num [calculate_execution_details, calcExecGo, min_def, List.headI]
  · norm_num [calculate_execution_details, calcExecGo, min_def]

/-- A get_amount_out buy walk over a single level of sufficient
quote-denominated depth converts the whole input at that level price. -/
theorem gao_single_buy (p v A : ℚ) (hA : 0 < A) (hd : A ≤ v * p) :
    get_amount_out [(p, v)] A true = A / p := by
  have hmin : min A (v * p) = A := min_eq_left hd
  simp [get_amount_out, gaoGo, not_le.mpr hA, sub_zero, hmin]

/-- A get_amount_out sell walk over a single level of sufficient size
converts the whole input at that level price. -/
theorem gao_single_sell (p v A : ℚ) (hA : 0 < A) (hd : A ≤ v) :
    get_amount_out [(p, v)] A false = A * p := by
  have hmin : min A v = A := min_eq_left hd
  simp [get_amount_out, gaoGo, not_le.mpr hA, sub_zero, hmin]

/-- C3 amended.  Each evaluated cycle direction of
find_triangular_opportunity deducts the per-leg taker fee exactly once
per leg, three times in total, and the two directions walk mirrored sides
with the same fee treatment: on single-level books of sufficient depth
the forward final-to-start ratio is (1-fee)^3 * bid3 / (ask1 * ask2) and
the reverse ratio is (1-fee)^3 * bid2 * bid1 / ask3.  However, the
reverse direction is evaluated only when the forward direction fails to
complete a positive final amount: a completed forward cycle is returned
immediately, even at a loss, and otherwise the result is exactly that of
the standalone reverse evaluator. -/
theorem triangular_direction_and_fee_structure :
    (∀ (mb qm qb : Book) (cN aN bN : String) (s f : ℚ) (r : TriRes),
        path1Eval mb qm qb cN aN bN s f = some r →
        find_triangular_opportunity mb qm qb cN aN bN s f = some r)
    ∧ (∀ (mb qm qb : Book) (cN aN bN : String) (s f : ℚ),
        path1Eval mb qm qb cN aN bN s f = none →
        find_triangular_opportunity mb qm qb cN aN bN s f
          = path2Eval mb qm qb cN aN bN s f)
    ∧ (∀ (p1 v1 p2 v2 q3 w3 start fee : ℚ) (mbB qmB qbA : List Level)
        (cN aN bN : String),
        0 < start → 0 < p1 → 0 < p2 → 0 < q3 → 0 ≤ fee → fee < 1 →
        start ≤ v1 * p1 →
        start / p1 * (1 - fee) ≤ v2 * p2 →
        start / p1 * (1 - fee) / p2 * (1 - fee) ≤ w3 →
        path1Eval ⟨mbB, [(p1, v1)]⟩ ⟨qmB, [(p2, v2)]⟩ ⟨[(q3, w3)], qbA⟩
            cN aN bN start fee
          = some ⟨cN ++ "->" ++ aN ++ "->" ++ bN ++ "->" ++ cN,
              (1 - fee) ^ 3 * q3 / (p1 * p2) - 1⟩)
    ∧ (∀ (p3 u3 q2 w2 q1 w1 start fee : ℚ) (mbA qmA qbB : List Level)
        (cN aN bN : String),
        0 < start → 0 < p3 → 0 < q2 → 0 < q1 → 0 ≤ fee → fee < 1 →
        start ≤ u3 * p3 →
        start / p3 * (1 - fee) ≤ w2 →
        start / p3 * (1 - fee) * q2 * (1 - fee) ≤ w1 →
        path2Eval ⟨[(q1, w1)], mbA⟩ ⟨[(q2, w2)], qmA⟩ ⟨qbB, [(p3, u3)]⟩
            cN aN bN start fee
          = some ⟨cN ++ "->" ++ bN ++ "->" ++ aN ++ "->" ++ cN,
              (1 - fee) ^ 3 * q2 * q1 / p3 - 1⟩) := by
  refine ⟨?_, ?_, ?_, ?_⟩
  · intro mb qm qb cN aN bN s f r h
    rw [find_triangular_opportunity, h]
  · intro mb qm qb cN aN bN s f h
    rw [find_triangular_opportunity, h]
  · intro p1 v1 p2 v2 q3 w3 start fee mbB qmB qbA cN aN bN
      hs hp1 hp2 hq3 hf0 hf1 d1 d2 d3
    have hfee : 0 < 1 - fee := by linarith
    have hA1 : 0 < start / p1 := div_pos hs hp1
    have hA : 0 < start / p1 * (1 - fee) := mul_pos hA1 hfee
    have hB1 : 0 < start / p1 * (1 - fee) / p2 := div_pos hA hp2
    have hB : 0 < start / p1 * (1 - fee) / p2 * (1 - fee) := mul_pos hB1 hfee
    have hFin : 0 < start / p1 * (1 - fee) / p2 * (1 - fee) * q3 * (1 - fee) :=
      mul_pos (mul_pos hB hq3) hfee
    simp only [path1Eval]
    rw [gao_single_buy p1 v1 start hs d1, if_pos hA,
      gao_single_buy p2 v2 (start / p1 * (1 - fee)) hA d2, if_pos hB,
      gao_single_sell q3 w3 (start / p1 * (1 - fee) / p2 * (1 - fee)) hB d3,
      if_pos hFin]
    congr 1
    congr 1
    field_simp
    ring
  · intro p3 u3 q2 w2 q1 w1 start fee mbA qmA qbB cN aN bN
      hs hp3 hq2 hq1 hf0 hf1 d1 d2 d3
    have hfee : 0 < 1 - fee := by linarith
    have hB1 : 0 < start / p3 := div_pos hs hp3
    have hB : 0 < start / p3 * (1 - fee) := mul_pos hB1 hfee
    have hA : 0 < start / p3 * (1 - fee) * q2 * (1 - fee) :=
      mul_pos (mul_pos hB hq2) hfee
    have hFin : 0 < start / p3 * (1 - fee) * q2 * (1 - fee) * q1 * (1 - fee) :=
      mul_pos (mul_pos hA hq1) hfee
    simp only [path2Eval]
    rw [gao_single_buy p3 u3 start hs d1, if_pos hB,
      gao_single_sell q2 w2 (start / p3 * (1 - fee)) hB d2, if_pos hA,
      gao_single_sell q1 w1 (start / p3 * (1 - fee) * q2 * (1 - fee)) hA d3,
      if_pos hFin]
    congr 1
    congr 1
    field_simp
    ring

/-- Witness for C3 amended, instantiating the forward fee-cube conjunct
on the counterexample triangle: three legs, three fee deductions. -/
theorem triangular_direction_and_fee_structure_witness :
    path1Eval ⟨[], [(10, 1000)]⟩ ⟨[], [(1, 1000)]⟩ ⟨[(9, 1000)], []⟩
        "USDT" "BTC" "ETH" 100 (1 / 1000)
      = some ⟨"USDT->BTC->ETH->USDT", (1 - 1 / 1000) ^ 3 * 9 / (10 * 1) - 1⟩ :=
  triangular_direction_and_fee_structure.2.2.1 10 1000 1 1000 9 1000 100 (1 / 1000)
    [] [] [] "USDT" "BTC" "ETH" (by norm_num) (by norm_num) (by norm_num)
    (by norm_num) (by norm_num) (by norm_num) (by norm_num) (by norm_num) (by norm_num)

/-- The two venues of the simulator (the keys of self.balances in
src/live_trader.py, in dict order okx then bybit). -/
inductive Exch
  | okx
  | bybit
deriving DecidableEq

/-- The other venue: next(e for e in exchanges if e != ex) with exactly
two exchanges. -/
def otherExch : Exch → Exch
  | .okx => .bybit
  | .bybit => .okx

/-- Simulated balances: per venue, a currency-symbol-indexed amount
(defaultdict(float) in the source, so every symbol has an amount,
defaulting to zero). -/
def Balances := Exch → String → ℚ

/-- Pointwise update of one (venue, currency) cell. -/
def setBal (s : Balances) (e : Exch) (c : String) (q : ℚ) : Balances :=
  fun e2 c2 => if e2 = e ∧ c2 = c then q else s e2 c2

/-- The fields of an opportunity dict that
PortfolioSimulator.check_and_update_balances reads: the buy and sell
venues (lower-cased exchange names resolved to venue keys), the base and
quote currencies of the pair, and the three amounts. -/
structure TradeOpp where
  buy_exchange : Exch
  sell_exchange : Exch
  base_asset : String
  quote_asset : String
  quote_asset_cost : ℚ
  base_asset_amount : ℚ
  quote_asset_revenue : ℚ

/-- PortfolioSimulator.check_and_update_balances from src/live_trader.py
lines 71-85: check the buy venue quote balance and the sell venue base
balance, then debit and credit the four cells in source order. -/
def check_and_update_balances (s : Balances) (o : TradeOpp) : Bool × Balances :=
  if s o.buy_exchange o.quote_asset < o.quote_asset_cost then (false, s)
  else if s o.sell_exchange o.base_asset < o.base_asset_amount then (false, s)
  else
    let s1 := setBal s o.buy_exchange o.quote_asset
      (s o.buy_exchange o.quote_asset - o.quote_asset_cost)
    let s2 := setBal s1 o.buy_exchange o.base_asset
      (s1 o.buy_exchange o.base_asset + o.base_asset_amount)
    let s3 := setBal s2 o.sell_exchange o.base_asset
      (s2 o.sell_exchange o.base_asset - o.base_asset_amount)
    let s4 := setBal s3 o.sell_exchange o.quote_asset
      (s3 o.sell_exchange o.quote_asset + o.quote_asset_revenue)
    (true, s4)

/-- C9.  If the buy venue holds less quote currency than the cost, or the
sell venue holds less base currency than the amount,
check_and_update_balances returns false and the balances mapping is
returned unchanged: the insufficient-funds path touches no cell. -/
theorem insufficient_funds_changes_nothing (s : Balances) (o : TradeOpp)
    (h : s o.buy_exchange o.quote_asset < o.quote_asset_cost ∨
      s o.sell_exchange o.base_asset < o.base_asset_amount) :
    check_and_update_balances s o = (false, s) := by
  rcases h with h | h
  · rw [check_and_update_balances, if_pos h]
  · rw [check_and_update_balances]
    by_cases h1 : s o.buy_exchange o.quote_asset < o.quote_asset_cost
    · rw [if_pos h1]
    · rw [if_neg h1, if_pos h]

/-- Witness for C9: an empty ledger rejects a trade costing 1 quote unit
and changes nothing. -/
theorem insufficient_funds_changes_nothing_witness :
    check_and_update_balances (fun _ _ => 0)
      ⟨Exch.okx, Exch.bybit, "SOL", "USDT", 1, 1, 1⟩ = (false, fun _ _ => 0) :=
  insufficient_funds_changes_nothing (fun _ _ => 0)
    ⟨Exch.okx, Exch.bybit, "SOL", "USDT", 1, 1, 1⟩ (Or.inl (by norm_num))

/-- REBALANCE_THRESHOLD_PERCENTAGE of src/config/settings.py (20 percent
deviation from the ideal even split triggers a rebalance). -/
def REBALANCE_THRESHOLD_PERCENTAGE : ℚ := 1 / 5

/-- REBALANCE_AMOUNT_PERCENTAGE of src/config/settings.py (half of the
excess is moved). -/
def REBALANCE_AMOUNT_PERCENTAGE : ℚ := 1 / 2

/-- The other venue differs from the given one. -/
theorem otherExch_ne (e : Exch) : e ≠ otherExch e := by
  cases e <;> simp [otherExch]

/-- One iteration of the rebalancing loop of
PortfolioSimulator.check_and_perform_rebalance (src/live_trader.py lines
100-115 for USDT, 122-137 for base assets) for venue ex of the fixed
two-venue set: compare the venue holding of the asset against the ideal
even split of the precomputed total, and move half the excess to or from
the other venue when the relative deviation exceeds the threshold. -/
def rebalStep (total : ℚ) (asset : String) (ex : Exch) (s : Balances) : Balances :=
  let ideal := total / 2
  let deviation := (s ex asset - ideal) / ideal
  if REBALANCE_THRESHOLD_PERCENTAGE < |deviation| then
    let amount_to_move := |s ex asset - ideal| * REBALANCE_AMOUNT_PERCENTAGE
    if 0 < deviation then
      let s1 := setBal s ex asset (s ex asset - amount_to_move)
      setBal s1 (otherExch ex) asset (s1 (otherExch ex) asset + amount_to_move)
    else
      let s1 := setBal s ex asset (s ex asset + amount_to_move)
      setBal s1 (otherExch ex) asset (s1 (otherExch ex) asset - amount_to_move)
  else s

/-- One asset pass of check_and_perform_rebalance: compute the total over
both venues once, and if it is positive run the loop body for okx and
then for bybit (the source iterates exchanges in that order with the
total fixed). -/
def rebalanceAsset (asset : String) (s : Balances) : Balances :=
  let total := s Exch.okx asset + s Exch.bybit asset
  if 0 < total then
    rebalStep total asset Exch.bybit (rebalStep total asset Exch.okx s)
  else s

/-- PortfolioSimulator.check_and_perform_rebalance from
src/live_trader.py: one pass for USDT, then one pass for the base asset
of every tracked pair. -/
def check_and_perform_rebalance (base_assets : List String) (s : Balances) : Balances :=
  base_assets.foldl (fun st a => rebalanceAsset a st) (rebalanceAsset "USDT" s)

/-- Invariant of one rebalancing iteration: when the two venue holdings
of the asset are non-negative and sum to the positive precomputed total,
they stay non-negative, still sum to the total, and no other cell
changes. -/
theorem rebalStep_inv (total : ℚ) (asset : String) (ex : Exch) (s : Balances)
    (htot : 0 < total)
    (hsum : s ex asset + s (otherExch ex) asset = total)
    (h1 : 0 ≤ s ex asset) (h2 : 0 ≤ s (otherExch ex) asset) :
    0 ≤ rebalStep total asset ex s ex asset ∧
    0 ≤ rebalStep total asset ex s (otherExch ex) asset ∧
    rebalStep total asset ex s ex asset +
      rebalStep total asset ex s (otherExch ex) asset = total ∧
    ∀ e c, c ≠ asset → rebalStep total asset ex s e c = s e c := by
  have hne : ex ≠ otherExch ex := otherExch_ne ex
  have hideal : 0 < total / 2 := by linarith
  rw [rebalStep]
  by_cases habs : REBALANCE_THRESHOLD_PERCENTAGE <
      |(s ex asset - total / 2) / (total / 2)|
  · rw [if_pos habs]
    by_cases hdev : 0 < (s ex asset - total / 2) / (total / 2)
    · rw [if_pos hdev]
      have hx : total / 2 < s ex asset := by
        rcases (div_pos_iff).mp hdev with ⟨hn, _⟩ | ⟨_, hd⟩
        · linarith
        · linarith
      have habs2 : |s ex asset - total / 2| = s ex asset - total / 2 :=
        abs_of_pos (by linarith)
      rw [habs2]
      refine ⟨?_, ?_, ?_, ?_⟩
      · simp [setBal, hne, REBALANCE_AMOUNT_PERCENTAGE]
        linarith
      · simp [setBal, hne, (otherExch_ne ex).symm, REBALANCE_AMOUNT_PERCENTAGE]
        linarith
      · simp [setBal, hne, (otherExch_ne ex).symm, REBALANCE_AMOUNT_PERCENTAGE]
        linarith
      · intro e c hc
        simp [setBal, hc]
    · rw [if_neg hdev]
      have hdevneg : (s ex asset - total / 2) / (total / 2) ≠ 0 := by
        intro hz
        rw [hz] at habs
        norm_num [REBALANCE_THRESHOLD_PERCENTAGE] at habs
      have hlt : (s ex asset - total / 2) / (total / 2) < 0 :=
        lt_of_le_of_ne (not_lt.mp hdev) hdevneg
      have hx : s ex asset < total / 2 := by
        rcases (div_neg_iff).mp hlt with ⟨hn, hd⟩ | ⟨hn, hd⟩
        · linarith
        · linarith
      have habs2 : |s ex asset - total / 2| = total / 2 - s ex asset := by
        rw [abs_of_neg (by linarith)]
        ring
      rw [habs2]
      refine ⟨?_, ?_, ?_, ?_⟩
      · simp [setBal, hne, REBALANCE_AMOUNT_PERCENTAGE]
        linarith
      · simp [setBal, hne, (otherExch_ne ex).symm, REBALANCE_AMOUNT_PERCENTAGE]
        linarith
      · simp [setBal, hne, (otherExch_ne ex).symm, REBALANCE_AMOUNT_PERCENTAGE]
        linarith
      · intro e c hc
        simp [setBal, hc]
  · rw [if_neg habs]
    exact ⟨h1, h2, hsum, fun _ _ _ => rfl⟩

/-- One asset pass of the rebalancer preserves non-negativity in every
cell. -/
theorem rebalanceAsset_nonneg (asset : String) (s : Balances)
    (h0 : ∀ e c, 0 ≤ s e c) : ∀ e c, 0 ≤ rebalanceAsset asset s e c := by
  intro e c
  rw [rebalanceAsset]
  by_cases ht : 0 < s Exch.okx asset + s Exch.bybit asset
  · rw [if_pos ht]
    obtain ⟨a1, a2, a3, a4⟩ := rebalStep_inv (s Exch.okx asset + s Exch.bybit asset)
      asset Exch.okx s ht rfl (h0 _ _) (h0 _ _)
    obtain ⟨b1, b2, b3, b4⟩ := rebalStep_inv (s Exch.okx asset + s Exch.bybit asset)
      asset Exch.bybit (rebalStep (s Exch.okx asset + s Exch.bybit asset) asset Exch.okx s)
      ht (by simp only [otherExch] at a3 ⊢; linarith) a2 a1
    by_cases hc : c = asset
    · subst hc
      cases e
      · simpa [otherExch] using b2
      · exact b1
    · rw [b4 e c hc, a4 e c hc]
      exact h0 e c
  · rw [if_neg ht]
    exact h0 e c

/-- A fold of asset passes preserves non-negativity. -/
theorem rebalanceFold_nonneg (l : List String) :
    ∀ s : Balances, (∀ e c, 0 ≤ s e c) →
      ∀ e c, 0 ≤ (l.foldl (fun st a => rebalanceAsset a st) s) e c := by
  induction l with
  | nil => intro s h0 e c; exact h0 e c
  | cons a rest ih =>
    intro s h0 e c
    exact ih (rebalanceAsset a s) (rebalanceAsset_nonneg a s h0) e c

/-- A full check_and_perform_rebalance pass preserves non-negativity. -/
theorem rebalance_preserves_nonneg (base_assets : List String) (s : Balances)
    (h0 : ∀ e c, 0 ≤ s e c) :
    ∀ e c, 0 ≤ check_and_perform_rebalance base_assets s e c := by
  intro e c
  rw [check_and_perform_rebalance]
  exact rebalanceFold_nonneg base_assets (rebalanceAsset "USDT" s)
    (rebalanceAsset_nonneg "USDT" s h0) e c

/-- A single-cell write keeps a non-negative balances mapping
non-negative when the written value is non-negative. -/
theorem setBal_nonneg {s : Balances} (h0 : ∀ e c, 0 ≤ s e c) {e : Exch}
    {c : String} {q : ℚ} (hq : 0 ≤ q) : ∀ e2 c2, 0 ≤ setBal s e c q e2 c2 := by
  intro e2 c2
  rw [setBal]
  split
  · exact hq
  · exact h0 e2 c2

/-- An applied trade with non-negative cost, amount and revenue preserves
non-negativity (the checked balances cover the two debits; the two
credits only add). -/
theorem trade_preserves_nonneg (s : Balances) (o : TradeOpp)
    (h0 : ∀ e c, 0 ≤ s e c) (hc : 0 ≤ o.quote_asset_cost)
    (ha : 0 ≤ o.base_asset_amount) (hr : 0 ≤ o.quote_asset_revenue) :
    ∀ e c, 0 ≤ (check_and_update_balances s o).2 e c := by
  intro e c
  rw [check_and_update_balances]
  split
  · exact h0 e c
  · split
    · exact h0 e c
    · rename_i hch1 hch2
      rw [not_lt] at hch1 hch2
      set s1 := setBal s o.buy_exchange o.quote_asset
        (s o.buy_exchange o.quote_asset - o.quote_asset_cost) with hs1
      set s2 := setBal s1 o.buy_exchange o.base_asset
        (s1 o.buy_exchange o.base_asset + o.base_asset_amount) with hs2
      set s3 := setBal s2 o.sell_exchange o.base_asset
        (s2 o.sell_exchange o.base_asset - o.base_asset_amount) with hs3
      have h1 : ∀ e2 c2, 0 ≤ s1 e2 c2 := setBal_nonneg h0 (by linarith)
      have h2 : ∀ e2 c2, 0 ≤ s2 e2 c2 :=
        setBal_nonneg h1 (by linarith [h1 o.buy_exchange o.base_asset])
      have key : o.base_asset_amount ≤ s2 o.sell_exchange o.base_asset := by
        rw [hs2]
        by_cases hsb : o.sell_exchange = o.buy_exchange
        · rw [setBal, if_pos ⟨hsb, rfl⟩]
          linarith [h1 o.buy_exchange o.base_asset]
        · rw [setBal, if_neg (fun h => hsb h.1), hs1, setBal,
            if_neg (fun h => hsb h.1)]
          exact hch2
      have h3 : ∀ e2 c2, 0 ≤ s3 e2 c2 := setBal_nonneg h2 (by linarith)
      exact setBal_nonneg h3 (by linarith [h3 o.sell_exchange o.quote_asset]) e c

/-- An operation on the simulated ledger: an applied opportunity
(check_and_update_balances) or a periodic rebalance pass
(check_and_perform_rebalance). -/
inductive LedgerOp
  | trade (o : TradeOpp)
  | rebalance

/-- Run a sequence of ledger operations from a starting balances mapping
(base_assets is the fixed list of tracked base currencies the rebalancer
iterates). -/
def runLedgerOps (base_assets : List String) : Balances → List LedgerOp → Balances
  | s, [] => s
  | s, .trade o :: rest => runLedgerOps base_assets (check_and_update_balances s o).2 rest
  | s, .rebalance :: rest =>
    runLedgerOps base_assets (check_and_perform_rebalance base_assets s) rest

/-- C10.  Non-negativity is an invariant of the ledger: from non-negative
initial balances, any sequence of applies and rebalances whose applied
opportunities carry non-negative cost, amount and revenue leaves every
(venue, currency) balance non-negative. -/
theorem ledger_nonneg_invariant (base_assets : List String) (ops : List LedgerOp) :
    ∀ s : Balances, (∀ e c, 0 ≤ s e c) →
    (∀ o, LedgerOp.trade o ∈ ops →
      0 ≤ o.quote_asset_cost ∧ 0 ≤ o.base_asset_amount ∧ 0 ≤ o.quote_asset_revenue) →
    ∀ e c, 0 ≤ runLedgerOps base_assets s ops e c := by
  induction ops with
  | nil => intro s h0 _ e c; exact h0 e c
  | cons op rest ih =>
    intro s h0 hops e c
    cases op with
    | trade o =>
      obtain ⟨hc, ha, hr⟩ := hops o (List.mem_cons_self _ _)
      exact ih (check_and_update_balances s o).2
        (trade_preserves_nonneg s o h0 hc ha hr)
        (fun o2 h2 => hops o2 (List.mem_cons_of_mem _ h2)) e c
    | rebalance =>
      exact ih (check_and_perform_rebalance base_assets s)
        (rebalance_preserves_nonneg base_assets s h0)
        (fun o2 h2 => hops o2 (List.mem_cons_of_mem _ h2)) e c

/-- Witness for C10: from 1000 USDT on each venue, a trade followed by a
rebalance leaves the okx USDT cell non-negative. -/
theorem ledger_nonneg_invariant_witness :
    0 ≤ runLedgerOps ["SOL"] (fun _ _ => 1000)
      [LedgerOp.trade ⟨Exch.okx, Exch.bybit, "SOL", "USDT", 100, 1, 101⟩,
        LedgerOp.rebalance] Exch.okx "USDT" := by
  refine ledger_nonneg_invariant ["SOL"]
    [LedgerOp.trade ⟨Exch.okx, Exch.bybit, "SOL", "USDT", 100, 1, 101⟩,
      LedgerOp.rebalance] (fun _ _ => 1000) (fun _ _ => by norm_num) ?_ Exch.okx "USDT"
  intro o ho
  rcases List.mem_cons.mp ho with ho | ho
  · cases ho
    exact ⟨by norm_num, by norm_num, by norm_num⟩
  · rcases List.mem_cons.mp ho with ho | ho
    · exact absurd ho (by simp)
    · exact absurd ho (by simp)

/-- The pure detection core of check_for_arbitrage (src/live_trader.py
lines 166-191): read the four top-of-book prices (an IndexError on an
empty side is caught by the except clause and aborts the check), apply
the crossed-market pre-check, and on a crossed market run
find_depth_aware_opportunity with the configured trade size and fees.
The cached snapshots carry no receipt timestamps in the source (the
PriceManager stores the raw book dicts), and this function is the whole
computation between cache read and opportunity: nothing in it reads a
clock or a timestamp, and MAX_DATA_STALENESS_SECONDS is read nowhere in
the repository. -/
def check_for_arbitrage_detection (okxBook bybitBook : Book) : Option Opp :=
  if okxBook.asks = [] ∨ bybitBook.bids = [] ∨ bybitBook.asks = [] ∨ okxBook.bids = []
  then none
  else if ¬((okxBook.asks.headI).1 < (bybitBook.bids.headI).1 ∨
      (bybitBook.asks.headI).1 < (okxBook.bids.headI).1) then none
  else find_depth_aware_opportunity okxBook bybitBook TRADE_SIZE_USDT TRADING_FEES

/-- C1 refutation.  For any two receipt timestamps further apart than
MAX_DATA_STALENESS_SECONDS (for example 0 and 0.6 seconds), the detection
pipeline on a concrete crossed pair of cached books still runs the full
matching computation and returns an opportunity: no staleness check
exists anywhere on the path, so the stale pair is not rejected.  The
timestamps are explicit arguments here only to exhibit that the computed
result cannot depend on them. -/
theorem stale_pair_still_matched (tsOkx tsBybit : ℚ)
    (hstale : MAX_DATA_STALENESS_SECONDS < |tsOkx - tsBybit|) :
    check_for_arbitrage_detection ⟨[(999 / 10, 5)], [(100, 5)]⟩
        ⟨[(101, 5)], [(1011 / 10, 5)]⟩
      = some ⟨"Buy A, Sell B", "A", "B", 100, 101, 799 / 100100, 1,
          1001 / 10, 100899 / 1000⟩ := by
  norm_num [check_for_arbitrage_detection, find_depth_aware_opportunity, directionEval,
    calculate_execution_details, calcExecGo, TRADING_FEES, TRADE_SIZE_USDT, min_def,
    List.headI]

/-- Witness for C1: snapshots timestamped 0 and 0.6 seconds (0.6 apart,
bound 0.5) are still matched. -/
theorem stale_pair_still_matched_witness :
    MAX_DATA_STALENESS_SECONDS < |(0 : ℚ) - 3 / 5| ∧
    check_for_arbitrage_detection ⟨[(999 / 10, 5)], [(100, 5)]⟩
        ⟨[(101, 5)], [(1011 / 10, 5)]⟩
      = some ⟨"Buy A, Sell B", "A", "B", 100, 101, 799 / 100100, 1,
          1001 / 10, 100899 / 1000⟩ :=
  ⟨by norm_num [MAX_DATA_STALENESS_SECONDS, abs_of_nonneg],
    stale_pair_still_matched 0 (3 / 5)
      (by norm_num [MAX_DATA_STALENESS_SECONDS, abs_of_nonneg])⟩

/-- The fields of a parsed stream message that the connector dispatch
loops inspect: the op field (Bybit protocol ping), the Bybit topic, and
presence of the OKX arg field and of the data field. -/
structure WsMsg where
  op : Option String
  topic : Option String
  arg_present : Bool
  data_present : Bool
deriving DecidableEq

/-- How a connector hands a message to the update callback: the OKX
connector passes the venue name and the message (two arguments); the
Bybit connector passes only the message. -/
inductive CallbackCall
  | oneArg (m : WsMsg)
  | twoArg (venue : String) (m : WsMsg)
deriving DecidableEq

/-- The action a connector takes for one inbound message: answer the
keep-alive in-band, discard, or invoke the update callback. -/
inductive WsAction
  | pongReply
  | discard
  | invokeCb (c : CallbackCall)
deriving DecidableEq

/-- Per-message dispatch of OKXConnector.start (
src/connectors/okx_connector.py lines 31-40): a raw text frame equal to
ping is answered with pong; otherwise the parsed message is forwarded to
the callback as callback(okx, data) when both arg and data are present,
else dropped. -/
def okx_dispatch (raw_is_ping_text : Bool) (m : WsMsg) : WsAction :=
  if raw_is_ping_text then .pongReply
  else if m.arg_present ∧ m.data_present then .invokeCb (.twoArg "okx" m)
  else .discard

/-- Per-message dispatch of BybitConnector.start_public_stream (
src/connectors/bybit_connector.py lines 129-144) for the orderbook
stream type used by the live trader: an op ping message is answered with
pong; otherwise a message with topic and data is forwarded to the
callback as callback(data) with a single argument, else dropped. -/
def bybit_dispatch (m : WsMsg) : WsAction :=
  if m.op = some "ping" then .pongReply
  else if m.topic.isSome ∧ m.data_present then .invokeCb (.oneArg m)
  else .discard

/-- C5 refutation.  On a concrete subscribed orderbook message, the Bybit
connector invokes the callback with the message as its only argument,
not as onUpdate(venue, snapshot): the two-argument form with venue first
is not what is invoked (the OKX connector does use the two-argument
form).  Every update handler in the repository takes (exchange, message),
so each forwarded Bybit message raises a TypeError at the call instead of
being processed. -/
theorem bybit_callback_lacks_venue_argument :
    bybit_dispatch ⟨none, some "orderbook.50.SOLUSDT", false, true⟩
      = WsAction.invokeCb (.oneArg ⟨none, some "orderbook.50.SOLUSDT", false, true⟩)
    ∧ bybit_dispatch ⟨none, some "orderbook.50.SOLUSDT", false, true⟩
      ≠ WsAction.invokeCb (.twoArg "bybit" ⟨none, some "orderbook.50.SOLUSDT", false, true⟩)
    ∧ okx_dispatch false ⟨none, none, true, true⟩
      = WsAction.invokeCb (.twoArg "okx" ⟨none, none, true, true⟩)
    ∧ okx_dispatch true ⟨none, none, true, true⟩ = WsAction.pongReply
    ∧ bybit_dispatch ⟨some "ping", none, false, false⟩ = WsAction.pongReply := by
  refine ⟨rfl, ?_, rfl, rfl, rfl⟩
  decide

/-- TRADING_PAIRS of src/config/settings.py. -/
def TRADING_PAIRS : List String :=
  ["SOL/USDT", "MATIC/USDT", "DOGE/USDT", "TON/USDT", "TAC/USDT"]

/-- VOLATILITY_MULTIPLIER of src/config/settings.py. -/
def VOLATILITY_MULTIPLIER : ℚ := 2

/-- VOLATILITY_LOOKBACK_PERIOD of src/config/settings.py (the maxlen of
the price-history deque). -/
def VOLATILITY_LOOKBACK_PERIOD : ℕ := 60

/-- The Python exceptions that can arise on the update path: the three
the handler catches, plus ValueError (float of a non-numeric string,
wrong tuple unpacking) and ZeroDivisionError, which it does not. -/
inductive PyErr
  | keyError
  | indexError
  | typeError
  | valueError
  | zeroDivisionError
deriving DecidableEq

/-- A raw wire value in a price level as seen before float conversion: a
string that parses to a number, or one that does not. -/
inductive PyStr
  | numeric (q : ℚ)
  | malformed (s : String)
deriving DecidableEq, Inhabited

/-- Python float() on a wire value: a numeric string yields its value, a
non-numeric string raises ValueError. -/
def pyFloat : PyStr → Except PyErr ℚ
  | .numeric q => .ok q
  | .malformed _ => .error .valueError

/-- An order-book payload before numeric validation: bids and asks as
lists of (price, size) wire-value pairs (level shape is structural in
the embedding; the claim inputs exercise field content, not arity). -/
structure RawBook where
  bids : List (PyStr × PyStr)
  asks : List (PyStr × PyStr)
deriving DecidableEq

/-- Python list indexing at 0: IndexError on an empty list. -/
def listHead {α : Type} : List α → Except PyErr α
  | [] => .error .indexError
  | x :: _ => .ok x

/-- Python dict access for an optional field: KeyError when absent. -/
def getOpt {α : Type} : Option α → Except PyErr α
  | none => .error .keyError
  | some x => .ok x

/-- Python float division: ZeroDivisionError on a zero denominator. -/
def qdivExc (x y : ℚ) : Except PyErr ℚ :=
  if y = 0 then .error .zeroDivisionError else .ok (x / y)

/-- Python single-character str.replace. -/
def pyReplaceChar (c r : Char) (s : String) : String :=
  String.mk (s.data.map (fun ch => if ch = c then r else ch))

/-- Python str.replace of a character with the empty string. -/
def pyDropChar (c : Char) (s : String) : String :=
  String.mk (s.data.filter (fun ch => ch ≠ c))

/-- Python two-way tuple unpacking of str.split: ValueError unless the
split has exactly two parts. -/
def splitSlash (s : String) : Option (String × String) :=
  match s.splitOn "/" with
  | [b, q] => some (b, q)
  | _ => none

/-- The PriceManager state of src/live_trader.py: latest raw book per
(venue, pair) for the two venues, and the mid-price history per pair. -/
structure PMState where
  okx_books : String → Option RawBook
  bybit_books : String → Option RawBook
  history : String → List ℚ

/-- The mutable state the update path touches: the price manager and the
portfolio simulator balances. -/
structure BotState where
  pm : PMState
  portfolio : Balances

/-- Store a book under self.prices[pair][exchange] (the source only ever
passes the venue names okx and bybit). -/
def storeBook (st : PMState) (exchange pair : String) (book : RawBook) : PMState :=
  if exchange = "okx" then
    { st with okx_books := fun p => if p = pair then some book else st.okx_books p }
  else if exchange = "bybit" then
    { st with bybit_books := fun p => if p = pair then some book else st.bybit_books p }
  else st

/-- PriceManager.update_price from src/live_trader.py lines 39-46: store
the book, then when both sides are non-empty parse the two top prices
with float (ValueError escapes here on a non-numeric price) and append
the mid price to the bounded history. -/
def update_price (exchange pair : String) (book : RawBook) (st : PMState) :
    Except PyErr PMState :=
  if pair ∈ TRADING_PAIRS then
    let st1 := storeBook st exchange pair book
    if book.bids ≠ [] ∧ book.asks ≠ [] then do
      let best_bid ← pyFloat (book.bids.headI).1
      let best_ask ← pyFloat (book.asks.headI).1
      let mid := (best_bid + best_ask) / 2
      let newHist := ((st1.history pair) ++ [mid]).drop
        ((st1.history pair).length + 1 - VOLATILITY_LOOKBACK_PERIOD)
      pure { st1 with history := fun p => if p = pair then newHist else st1.history p }
    else pure st1
  else pure st

/-- The loop of calculate_execution_details over wire values: each level
is float-converted before the break check, exactly as in the source. -/
def calcExecGoExc : List (PyStr × PyStr) → ℚ → ℚ → ℚ → Except PyErr (ℚ × ℚ)
  | [], _, total_cost, filled => .ok (total_cost, filled)
  | (ps, vs) :: rest, amount_to_fill, total_cost, filled => do
    let price ← pyFloat ps
    let volume ← pyFloat vs
    if amount_to_fill ≤ 0 then .ok (total_cost, filled)
    else
      let trade_volume := min amount_to_fill volume
      calcExecGoExc rest (amount_to_fill - trade_volume)
        (total_cost + trade_volume * price) (filled + trade_volume)

/-- calculate_execution_details over wire values, propagating float
conversion errors. -/
def calculate_execution_detailsExc (side : List (PyStr × PyStr)) (trade_amount : ℚ)
    (is_buy_side : Bool) : Except PyErr (Option Fill) := do
  let r ← calcExecGoExc side trade_amount 0 0
  if r.2 = 0 then pure none
  else pure (some ⟨r.1 / r.2, r.1, r.2⟩)

/-- One scenario block of find_depth_aware_opportunity over wire values,
with explicit division errors. -/
def directionEvalExc (buySide sellSide : List (PyStr × PyStr)) (ts bf sf : ℚ)
    (tstr bx sx : String) : Except PyErr DirOut := do
  let p0 ← pyFloat (buySide.headI).1
  let amt ← qdivExc ts p0
  let bd? ← calculate_execution_detailsExc buySide amt true
  match bd? with
  | none => pure .pass
  | some bd =>
    if 0 < bd.amount_filled then do
      let sd? ← calculate_execution_detailsExc sellSide bd.amount_filled false
      match sd? with
      | none => pure .pass
      | some sd =>
        if sd.amount_filled < bd.amount_filled * (99 / 100) then pure .reject
        else do
          let cost := bd.total_other_asset * (1 + bf)
          let revenue := sd.total_other_asset * (1 - sf)
          let pr ← qdivExc revenue cost
          if 0 < pr - 1 then
            pure (.found ⟨tstr, bx, sx, bd.avg_price, sd.avg_price, pr - 1,
              sd.amount_filled, cost, revenue⟩)
          else pure .pass
    else pure .pass

/-- find_depth_aware_opportunity over wire values, propagating every
uncaught exception of the source function. -/
def find_depth_aware_opportunityExc (a b : RawBook) (ts : ℚ) (fees : Fees) :
    Except PyErr (Option Opp) :=
  if a.asks = [] ∨ b.bids = [] then pure none
  else do
    let d1 ← directionEvalExc a.asks b.bids ts fees.okx_taker fees.bybit_taker
      "Buy A, Sell B" "A" "B"
    match d1 with
    | .reject => pure none
    | .found o => pure (some o)
    | .pass =>
      if b.asks = [] ∨ a.bids = [] then pure none
      else do
        let d2 ← directionEvalExc b.asks a.bids ts fees.bybit_taker fees.okx_taker
          "Buy B, Sell A" "B" "A"
        match d2 with
        | .reject => pure none
        | .found o => pure (some o)
        | .pass => pure none

/-- PriceManager.calculate_volatility: zero below two samples, otherwise
the standard deviation of percentage returns, taken here as a function
argument because a standard deviation leaves the rationals (no claim
depends on its value). -/
def calculate_volatility (sigma : List ℚ → ℚ) (hist : List ℚ) : ℚ :=
  if hist.length < 2 then 0 else sigma hist

/-- check_for_arbitrage from src/live_trader.py lines 166-217 over wire
values: fetch both cached books (missing venue aborts), read the four
top-of-book floats inside a try that swallows IndexError and KeyError
only, apply the crossed-market pre-check, run detection, relabel the
venues, apply the dynamic threshold (DYNAMIC_THRESHOLD_ENABLED is true
in settings), and on an accepted opportunity run the ledger update.  The
base and quote currency split of the pair (two-way unpacking inside
check_and_update_balances) raises ValueError unless the pair has exactly
one slash. -/
def check_for_arbitrageExc (sigma : List ℚ → ℚ) (pair : String) (st : BotState) :
    Except PyErr BotState :=
  match st.pm.okx_books pair, st.pm.bybit_books pair with
  | some okx_book, some bybit_book =>
    let tops : Except PyErr (ℚ × ℚ × ℚ × ℚ) := do
      let oaL ← listHead okx_book.asks
      let oa ← pyFloat oaL.1
      let bbL ← listHead bybit_book.bids
      let bb ← pyFloat bbL.1
      let baL ← listHead bybit_book.asks
      let ba ← pyFloat baL.1
      let obL ← listHead okx_book.bids
      let ob ← pyFloat obL.1
      pure (oa, bb, ba, ob)
    match tops with
    | .error .indexError => pure st
    | .error .keyError => pure st
    | .error e => .error e
    | .ok (oa, bb, ba, ob) =>
      if ¬(oa < bb ∨ ba < ob) then pure st
      else do
        let opp? ← find_depth_aware_opportunityExc okx_book bybit_book
          TRADE_SIZE_USDT TRADING_FEES
        match opp? with
        | none => pure st
        | some opp =>
          let buy_name := if opp.buy_exchange = "A" then "OKX" else "Bybit"
          let sell_name := if opp.sell_exchange = "A" then "Bybit" else "OKX"
          let vol := calculate_volatility sigma (st.pm.history pair)
          let threshold :=
            if 0 < vol then
              max MIN_PROFIT_THRESHOLD
                (MIN_PROFIT_THRESHOLD + vol * VOLATILITY_MULTIPLIER)
            else MIN_PROFIT_THRESHOLD
          if threshold ≤ opp.profit_percentage then
            match splitSlash pair with
            | some (base_asset, quote_asset) =>
              let tro : TradeOpp :=
                ⟨if buy_name = "OKX" then Exch.okx else Exch.bybit,
                  if sell_name = "OKX" then Exch.okx else Exch.bybit,
                  base_asset, quote_asset,
                  opp.quote_asset_cost, opp.base_asset_amount, opp.quote_asset_revenue⟩
              pure { st with portfolio := (check_and_update_balances st.portfolio tro).2 }
            | none => .error .valueError
          else pure st
  | _, _ => pure st

/-- An inbound stream message as consumed by handle_update: the Bybit
topic and payload, and the OKX instrument id (arg.instId, with either
dict lookup missing modelled as the absent field) and payload list. -/
structure InMsg where
  topic : Option String
  bybit_data : Option RawBook
  okx_arg_instId : Option String
  okx_data : Option (List RawBook)

/-- handle_update from src/live_trader.py lines 145-164: parse the venue
message, update the price manager, and run check_for_arbitrage, all
inside a try whose except clause catches KeyError, IndexError and
TypeError only, swallowing the message; any other exception (ValueError,
ZeroDivisionError) escapes the handler. -/
def handle_update (sigma : List ℚ → ℚ) (exchange : String) (msg : InMsg)
    (st : BotState) : Except PyErr BotState :=
  let body : Except PyErr BotState :=
    if exchange = "bybit" then do
      let topic ← getOpt msg.topic
      let pair_symbol := (topic.splitOn ".").getLastD ""
      let pair? := TRADING_PAIRS.find? (fun p => pyDropChar '/' p = pair_symbol)
      let book ← getOpt msg.bybit_data
      match pair? with
      | none => pure st
      | some pair => do
        let pm1 ← update_price "bybit" pair book st.pm
        check_for_arbitrageExc sigma pair { st with pm := pm1 }
    else if exchange = "okx" then do
      let instId ← getOpt msg.okx_arg_instId
      let pair := pyReplaceChar '-' '/' instId
      let dataL ← getOpt msg.okx_data
      let book ← listHead dataL
      if pair ∈ TRADING_PAIRS then do
        let pm1 ← update_price "okx" pair book st.pm
        check_for_arbitrageExc sigma pair { st with pm := pm1 }
      else pure st
    else pure st
  match body with
  | .error .keyError => pure st
  | .error .indexError => pure st
  | .error .typeError => pure st
  | other => other

/-- A subscribed OKX book message whose top bid price is a non-numeric
string. -/
def badOkxMsg : InMsg :=
  ⟨none, none, some "SOL-USDT",
    some [⟨[(PyStr.malformed "abc", PyStr.numeric 1)],
      [(PyStr.numeric 1, PyStr.numeric 1)]⟩]⟩

/-- The startup state: no cached books, empty history, initial balances. -/
def initialBotState : BotState :=
  ⟨⟨fun _ => none, fun _ => none, fun _ => []⟩, fun _ _ => 1000⟩

/-- C2 refutation.  A single malformed inbound message (a subscribed OKX
order-book update whose top bid price string is not numeric) makes the
update path raise: float(non-numeric) raises ValueError inside
update_price, and the except clause of handle_update catches only
KeyError, IndexError and TypeError, so the exception escapes the handler
instead of the message being discarded. -/
theorem malformed_price_escapes_handler :
    handle_update (fun _ => 0) "okx" badOkxMsg initialBotState
      = Except.error PyErr.valueError := rfl
